import Mathlib

/-!
Verification of the grid paint program: layer stores (Set, Additive,
Sequence), the Grid brush stamping, and the undo and replay trackers.

The definitions below are a shallow embedding of the Python sources
src/grid.py, src/layer_store.py, src/undo.py and src/replay.py.  The
container primitives (data_structures/), the layer catalog
(layer_util.py) and PaintAction (action.py) are collaborators of the
repository that are not under src/; those are modelled from the
interface contracts stated in the specification, and each such
definition says so in its doc comment.  Fallible operations (queue
dequeue on empty, positional deletion out of range, catalog lookup out
of range, bounded append at capacity) return Option.
-/

set_option linter.unusedVariables false

/-- RGB colour value, a Python tuple of three integers. -/
abbrev Color := Int × Int × Int

/-- Modelled from the spec: layer_util.Layer (layer_util.py is not under
src/) — the immutable layer identity holding the registration ordinal
field named index, the layer name, and the colour transform taking the
running colour, the timestamp and the two coordinates. -/
structure Layer where
  index : Nat
  name : String
  apply : Color → Int → Int → Int → Color

/-- Modelled from the spec: bounded FIFO enqueue of the reusable queue
primitive (data_structures/queue_adt.CircularQueue, not under src/);
appending to a full queue is a failure, never silent growth. -/
def qAppend (cap : Nat) (q : List α) (a : α) : Option (List α) :=
  if q.length < cap then some (q ++ [a]) else none

/-- Modelled from the spec: FIFO dequeue of the reusable queue primitive
(CircularQueue.serve, not under src/); dequeuing from an empty queue is
a failure. -/
def qServe (q : List α) : Option (α × List α) :=
  match q with
  | [] => none
  | h :: t => some (h, t)

/-- Modelled from the spec: the (value, key) record stored in the sorted
table primitive (data_structures ListItem, not under src/); the table
keeps items in ascending key order. -/
structure ListItem (V K : Type) where
  value : V
  key : K
deriving DecidableEq

/-- Lexicographic code-point order on character lists, mirroring how
Python compares strings. -/
def listCharLe : List Char → List Char → Bool
  | [], _ => true
  | _ :: _, [] => false
  | a :: as, b :: bs =>
    if a.toNat < b.toNat then true
    else if b.toNat < a.toNat then false
    else listCharLe as bs

/-- Python-style lexicographic order on strings via code points. -/
def strLe (a b : String) : Bool := listCharLe a.toList b.toList

/-- Modelled from the spec: sorted insertion of the sorted table
primitive (ArraySortedList.add, not under src/), keeping ascending key
order under the boolean key order le. -/
def sortedAdd (le : K → K → Bool) (it : ListItem V K) : List (ListItem V K) → List (ListItem V K)
  | [] => [it]
  | h :: t => if le it.key h.key then it :: h :: t else h :: sortedAdd le it t

/-- Modelled from the spec: positional deletion of the sorted table
primitive (ArraySortedList.delete_at_index, not under src/), returning
the removed item and the remaining table; an out-of-range position —
including the negative position that SequenceLayerStore.special
computes when no layer is applied — is a failure. -/
def delete_at_index (l : List α) (i : Int) : Option (α × List α) :=
  if 0 ≤ i then
    match l.get? i.toNat with
    | some a => some (a, l.eraseIdx i.toNat)
    | none => none
  else none

/-- State of SetLayerStore (src/layer_store.py lines 52-56): the single
optional layer, field named array_sorted as in the source, and the
inverts flag, which starts as Python None. -/
structure SetLayerStore where
  array_sorted : Option Layer
  inverts : Option Bool

/-- SetLayerStore.add (lines 58-77): unconditionally replace the stored
layer and report changed. -/
def SetLayerStore.add (s : SetLayerStore) (layer : Layer) : SetLayerStore × Bool :=
  (⟨some layer, s.inverts⟩, true)

/-- SetLayerStore.erase (lines 108-128): clear the stored layer whatever
the argument is and report changed. -/
def SetLayerStore.erase (s : SetLayerStore) (layer : Layer) : SetLayerStore × Bool :=
  (⟨none, s.inverts⟩, true)

/-- State of AdditiveLayerStore (lines 147-153): the main queue layers
and the scratch queue temp_queue, both CircularQueues of capacity
2000. -/
structure AdditiveLayerStore where
  layers : List Layer
  temp_queue : List Layer

/-- AdditiveLayerStore.add (lines 155-171): append the layer at the tail
of the main queue and report changed; the bounded append fails at
capacity 2000. -/
def AdditiveLayerStore.add (s : AdditiveLayerStore) (layer : Layer) :
    Option (AdditiveLayerStore × Bool) :=
  (qAppend 2000 s.layers layer).map fun l => (⟨l, s.temp_queue⟩, true)

/-- AdditiveLayerStore.erase (lines 208-227): dequeue the head of the
main queue unconditionally — on an empty store this dequeue is a
failure — and always report changed; the layer argument is ignored. -/
def AdditiveLayerStore.erase (s : AdditiveLayerStore) (layer : Layer) :
    Option (AdditiveLayerStore × Bool) :=
  (qServe s.layers).map fun r => (⟨r.2, s.temp_queue⟩, true)

/-- The loop of AdditiveLayerStore.get_color (lines 192-199): serve each
layer of the main queue in turn, chain its transform onto the running
colour, and append it to the scratch queue; returns the drained main
queue, the filled scratch queue and the final colour. -/
def additiveLoop (t x y : Int) :
    List Layer → List Layer → Color → Option (List Layer × List Layer × Color)
  | [], temp, c => some ([], temp, c)
  | L :: rest, temp, c =>
    (qAppend 2000 temp L).bind fun temp2 =>
      additiveLoop t x y rest temp2 (L.apply c t x y)

/-- AdditiveLayerStore.get_color (lines 173-205): run the serve-apply-
append loop over the main queue, then swap the two queues, so the main
queue ends up holding the layers in their original insertion order. -/
def AdditiveLayerStore.get_color (s : AdditiveLayerStore) (start : Color) (t x y : Int) :
    Option (Color × AdditiveLayerStore) :=
  (additiveLoop t x y s.layers s.temp_queue start).map fun r => (r.2.2, ⟨r.2.1, r.1⟩)

/-- SequenceLayerStore.__init__ (lines 268-296): one (applied=false,
ordinal) item per catalog entry, inserted in ascending ordinal order
into the sorted table; env is the process-wide layer catalog read
through get_layers (layer_util.py, not under src/, modelled from the
spec as an explicit list parameter). -/
def SequenceLayerStore.init (env : List Layer) : List (ListItem Bool Nat) :=
  (List.range env.length).foldl (fun s e => sortedAdd Nat.ble ⟨false, e⟩ s) []

/-- SequenceLayerStore.add (lines 298-323): delete the item at the
position given by the layer index, then insert an (applied=true, index)
item; the positional deletion can fail, hence Option. -/
def SequenceLayerStore.add (s : List (ListItem Bool Nat)) (layer : Layer) :
    Option (List (ListItem Bool Nat)) :=
  (delete_at_index s (layer.index : Int)).map fun r =>
    sortedAdd Nat.ble ⟨true, layer.index⟩ r.2

/-- SequenceLayerStore.erase (lines 357-376): delete the item at the
position given by the layer index; the (false, index) item the source
constructs is a dead local and is never inserted back, so the slot is
removed from the table outright. -/
def SequenceLayerStore.erase (s : List (ListItem Bool Nat)) (layer : Layer) :
    Option (List (ListItem Bool Nat)) :=
  (delete_at_index s (layer.index : Int)).map fun r => r.2

/-- The loop of SequenceLayerStore.get_color (lines 347-353): iterate
over the table positions; for each applied item chain the transform of
the catalog layer at that key onto the running colour.  In the source
the loop variable shadows the x parameter of the method, so the
transform receives the iteration position as its x argument; a catalog
lookup out of range is a failure. -/
def seqColorLoop (env : List Layer) (t y : Int) :
    List (ListItem Bool Nat) → Nat → Color → Option Color
  | [], _, c => some c
  | it :: rest, idx, c =>
    if it.value then
      match env.get? it.key with
      | some L => seqColorLoop env t y rest (idx + 1) (L.apply c t (idx : Int) y)
      | none => none
    else seqColorLoop env t y rest (idx + 1) c

/-- SequenceLayerStore.get_color (lines 325-355).  The x parameter is
kept in the signature but, as in the source where the loop variable
shadows it, it is never consulted. -/
def SequenceLayerStore.get_color (env : List Layer) (s : List (ListItem Bool Nat))
    (start : Color) (t x y : Int) : Option Color :=
  seqColorLoop env t y s 0 start

/-- SequenceLayerStore.special (lines 378-412): collect the applied
items into a second sorted table keyed by layer name with the ordinal
as value; compute the one-based median position — for an odd count
(count + 1) / 2, for an even count count / 2; delete the table entry at
that position minus one (minus one is −1 when nothing is applied, a
failure); finally delete the store item at the position given by the
catalog index of the removed layer.  The removed slot is not
re-inserted with applied=false. -/
def SequenceLayerStore.special (env : List Layer) (s : List (ListItem Bool Nat)) :
    Option (List (ListItem Bool Nat)) := do
  let lexi ← s.foldlM (fun (acc : List (ListItem Nat String)) it =>
    if it.value then
      match env.get? it.key with
      | some L => some (sortedAdd strLe ⟨it.key, L.name⟩ acc)
      | none => none
    else some acc) []
  let median_index : Nat := if lexi.length % 2 == 1 then (lexi.length + 1) / 2 else lexi.length / 2
  let r ← delete_at_index lexi ((median_index : Int) - 1)
  let L ← env.get? r.1.value
  let r2 ← delete_at_index s (L.index : Int)
  some r2.2

/-- The SequenceStore invariant stated by the spec: exactly one slot per
catalog ordinal, in ascending ordinal order, no duplicates and no
gaps. -/
def seqInvariant (env : List Layer) (s : List (ListItem Bool Nat)) : Prop :=
  s.map (fun it => it.key) = List.range env.length

/-- The three LayerStore variants as a closed sum, for speaking about
which variant a grid cell holds. -/
inductive LayerStoreState where
  | setStore (s : SetLayerStore)
  | additiveStore (s : AdditiveLayerStore)
  | sequenceStore (s : List (ListItem Bool Nat))

/-- Tag of a LayerStore variant. -/
inductive StoreVariant where
  | set
  | additive
  | sequence
deriving DecidableEq

/-- Which variant a store state belongs to. -/
def variantOf : LayerStoreState → StoreVariant
  | .setStore _ => .set
  | .additiveStore _ => .additive
  | .sequenceStore _ => .sequence

/-- Grid state (src/grid.py): dimensions, the two-dimensional cell
array, and the brush size. -/
structure Grid where
  x : Nat
  y : Nat
  grid : List (List LayerStoreState)
  brush_size : Nat

/-- Grid.DRAW_STYLE_OPTIONS (src/grid.py lines 6-13). -/
def Grid.DRAW_STYLE_OPTIONS : List String := ["SET", "ADD", "SEQUENCE"]

/-- Grid.__init__ (src/grid.py lines 19-46).  In the source the validity
check on draw_style is commented out and draw_style is never consulted
nor stored: construction always succeeds, every cell receives a fresh
SetLayerStore whatever the style, and brush_size starts at
DEFAULT_BRUSH_SIZE = 2. -/
def Grid.init (draw_style : String) (x y : Nat) : Grid :=
  ⟨x, y, List.replicate x (List.replicate y (.setStore ⟨none, none⟩)), 2⟩

/-- Python range over integers: the list a, a+1, ..., b−1. -/
def intRange (a b : Int) : List Int :=
  (List.range (b - a).toNat).map fun (k : Nat) => a + (k : Int)

/-- The inner j loop of Grid.manhattan_distance (src/grid.py lines
128-134) for a fixed column i: the cells (i, j) with j ranging over the
brush window that pass the Manhattan-distance test and the bounds
test. -/
def innerCells (b n m : Nat) (x y i : Int) : List (Int × Int) :=
  (intRange (y - b) (y + b + 1)).filterMap fun j =>
    if (x - i).natAbs + (y - j).natAbs ≤ b ∧ 0 ≤ i ∧ i < (n : Int) ∧ 0 ≤ j ∧ j < (m : Int)
    then some (i, j) else none

/-- Grid.manhattan_distance (src/grid.py lines 109-134), abstracted to
the trace of cells on which add(layer) is invoked, in loop order: both
loops range over the brush window around the centre, a cell is touched
when its Manhattan distance from the centre is at most brush_size and
it lies inside the grid, and out-of-bounds offsets are skipped silently
(the function is total). -/
def Grid.manhattan_distance (g : Grid) (x y : Int) : List (Int × Int) :=
  (intRange (x - g.brush_size) (x + g.brush_size + 1)).flatMap fun i =>
    innerCells g.brush_size g.x g.y x y i

/-- PaintAction effects on the grid, abstracted to an event trace:
redo_apply appends a forward event and undo_apply appends an undo event
for the acted-on action (action.py is not under src/; modelled from the
spec contract that apply performs the forward edit and undo_apply the
exact inverse). -/
inductive PEvent (A : Type) where
  | fwd (a : A)
  | und (a : A)

/-- UndoTracker state (src/undo.py lines 8-23): the capacity and the two
bounded stacks, head of list = top of stack. -/
structure UndoTracker (A : Type) where
  capacity : Nat
  undo_stack : List A
  redo_stack : List A

/-- UndoTracker.__init__: both stacks empty. -/
def UndoTracker.init (A : Type) (capacity : Nat) : UndoTracker A :=
  ⟨capacity, [], []⟩

/-- UndoTracker.add_action (src/undo.py lines 25-44): push onto the undo
stack when below capacity, otherwise silently drop the action. -/
def UndoTracker.add_action (t : UndoTracker A) (a : A) : UndoTracker A :=
  if t.undo_stack.length < t.capacity then ⟨t.capacity, a :: t.undo_stack, t.redo_stack⟩ else t

/-- UndoTracker.undo (src/undo.py lines 46-72): pop the newest action,
apply its inverse to the grid and return it; on an empty stack return
none and leave the grid untouched. -/
def UndoTracker.undo (t : UndoTracker A) (g : List (PEvent A)) :
    Option A × UndoTracker A × List (PEvent A) :=
  match t.undo_stack with
  | [] => (none, t, g)
  | a :: rest => (some a, ⟨t.capacity, rest, t.redo_stack⟩, g ++ [.und a])

/-- Iterated UndoTracker.undo with explicit fuel, collecting the
returned actions in call order together with the final grid trace. -/
def UndoTracker.undoIter : Nat → UndoTracker A → List (PEvent A) → List A × List (PEvent A)
  | 0, _, g => ([], g)
  | n + 1, t, g =>
    match t.undo g with
    | (none, _, g1) => ([], g1)
    | (some a, t1, g1) =>
      let r := UndoTracker.undoIter n t1 g1
      (a :: r.1, r.2)

/-- ReplayTracker log entries: either a direct PaintAction or the nested
ReplayTracker that src/replay.py queues as the undo marker (the nested
tracker carries its own replay queue and internal UndoTracker). -/
inductive REntry (A : Type) where
  | pa (a : A)
  | rt (queue : List (REntry A)) (undoT : UndoTracker A)

/-- ReplayTracker state (src/replay.py lines 88-95): the bounded replay
queue and the internal UndoTracker, both of the given capacity. -/
structure ReplayTracker (A : Type) where
  qcap : Nat
  replay_queue : List (REntry A)
  undo_tracker : UndoTracker A

/-- ReplayTracker.__init__: empty queue and fresh internal tracker. -/
def ReplayTracker.init (A : Type) (capacity : Nat) : ReplayTracker A :=
  ⟨capacity, [], UndoTracker.init A capacity⟩

/-- ReplayTracker.add_action (src/replay.py lines 105-131).  A direct
action is appended to the replay queue and registered with the internal
undo tracker.  An undo entry is registered with the internal undo
tracker, then a fresh nested ReplayTracker of default capacity 10000 is
given the action through its own add_action — leaving it with queue
[pa a] and its internal tracker holding a, both appends succeeding
below capacity 10000 — and that nested tracker is appended to the
replay queue as the marker.  Appending to a full replay queue is a
failure. -/
def ReplayTracker.add_action (r : ReplayTracker A) (a : A) (is_undo : Bool) :
    Option (ReplayTracker A) :=
  if is_undo then
    (qAppend r.qcap r.replay_queue
        (.rt [.pa a] ((UndoTracker.init A 10000).add_action a))).map
      fun q => ⟨r.qcap, q, r.undo_tracker.add_action a⟩
  else
    (qAppend r.qcap r.replay_queue (.pa a)).map
      fun q => ⟨r.qcap, q, r.undo_tracker.add_action a⟩

/-- ReplayTracker.play_next_action (src/replay.py lines 133-158): an
empty log reports exhausted (true) and the grid is untouched; otherwise
the head entry is dequeued — a nested-tracker marker has its internal
undo invoked on the grid, a direct action has its forward redo_apply
invoked — and false is reported. -/
def ReplayTracker.play_next_action (r : ReplayTracker A) (g : List (PEvent A)) :
    Bool × ReplayTracker A × List (PEvent A) :=
  match r.replay_queue with
  | [] => (true, r, g)
  | e :: rest =>
    match e with
    | .rt _ nut => (false, ⟨r.qcap, rest, r.undo_tracker⟩, (nut.undo g).2.2)
    | .pa a => (false, ⟨r.qcap, rest, r.undo_tracker⟩, g ++ [.fwd a])

/-- Identity colour transform, used for concrete catalog entries. -/
def idT : Color → Int → Int → Int → Color := fun c _ _ _ => c

/-- Concrete catalog layer with ordinal 0 and name a. -/
def layerA : Layer := ⟨0, "a", idT⟩

/-- Concrete catalog layer with ordinal 1 and name b. -/
def layerB : Layer := ⟨1, "b", idT⟩

/-- Concrete two-layer catalog. -/
def envAB : List Layer := [layerA, layerB]

/-- Concrete three-layer catalog named as in the spec example. -/
def envABC : List Layer := [⟨0, "alpha", idT⟩, ⟨1, "bravo", idT⟩, ⟨2, "charlie", idT⟩]

/-- Sequence store over envABC with all three layers applied. -/
def allApplied3 : List (ListItem Bool Nat) := [⟨true, 0⟩, ⟨true, 1⟩, ⟨true, 2⟩]

/-- C1: Grid construction ignores draw_style.  Even for the valid style
ADD every cell of the constructed grid holds a SetLayerStore, not an
AdditiveLayerStore, refuting uniform selection of the variant named by
draw_style. -/
theorem C1_grid_ignores_draw_style :
    "ADD" ∈ Grid.DRAW_STYLE_OPTIONS ∧
    ((Grid.init "ADD" 2 3).grid.all fun row =>
      row.all fun c => decide (variantOf c = StoreVariant.set)) = true ∧
    StoreVariant.set ≠ StoreVariant.additive := by
  refine ⟨by decide, by decide, by decide⟩

/-- C2: Grid construction with the unrecognized draw_style BOGUS
succeeds and returns a fully formed grid — the validity check is
commented out in the source — refuting fail-fast construction on an
invalid style. -/
theorem C2_invalid_style_constructs :
    "BOGUS" ∉ Grid.DRAW_STYLE_OPTIONS ∧
    Grid.init "BOGUS" 3 3 =
      ⟨3, 3, List.replicate 3 (List.replicate 3 (.setStore ⟨none, none⟩)), 2⟩ := by
  exact ⟨by decide, rfl⟩

/-- C3: SequenceLayerStore.special with zero applied layers is a failure
(it deletes at position −1) rather than a no-op; and on the applied
layers alpha, bravo, charlie it does pick the median name bravo but
deletes that slot from the table outright — shrinking it to two slots —
instead of setting the slot to applied=false. -/
theorem C3_special_zero_fails_and_deletes_slot :
    SequenceLayerStore.special envAB (SequenceLayerStore.init envAB) = none ∧
    SequenceLayerStore.special envABC allApplied3 = some [⟨true, 0⟩, ⟨true, 2⟩] ∧
    seqInvariant envABC allApplied3 ∧ ¬ seqInvariant envABC [⟨true, 0⟩, ⟨true, 2⟩] := by
  refine ⟨by decide, by decide, ?_, ?_⟩
  · unfold seqInvariant
    decide
  · unfold seqInvariant
    decide

/-- C4: SequenceLayerStore.erase deletes the slot at the layer position
without re-inserting an applied=false slot: erasing layer a from a
fresh two-layer store leaves a single slot instead of one slot per
catalog ordinal, violating the store invariant. -/
theorem C4_erase_breaks_slot_invariant :
    seqInvariant envAB (SequenceLayerStore.init envAB) ∧
    SequenceLayerStore.erase (SequenceLayerStore.init envAB) layerA = some [⟨false, 1⟩] ∧
    ¬ seqInvariant envAB [⟨false, 1⟩] := by
  refine ⟨?_, by decide, ?_⟩
  · unfold seqInvariant
    decide
  · unfold seqInvariant
    decide

/-- C5: AdditiveLayerStore.erase on an empty store fails (it dequeues
the empty queue unconditionally) instead of being a no-op that reports
not-changed; on a non-empty store it removes the head — the oldest
inserted layer — whatever the argument, and reports changed. -/
theorem C5_additive_erase_empty_fails :
    AdditiveLayerStore.erase ⟨[], []⟩ layerA = none ∧
    AdditiveLayerStore.erase ⟨[layerA, layerB], []⟩ layerB = some (⟨[layerB], []⟩, true) := by
  exact ⟨rfl, rfl⟩

/-- C10: SequenceLayerStore.get_color does not depend on the x
coordinate supplied by the caller: the source shadows the x parameter
with the loop position, so the transforms receive the iteration index
and any two x arguments give the same colour. -/
theorem C10_seq_get_color_ignores_x (env : List Layer) (s : List (ListItem Bool Nat))
    (start : Color) (t x1 x2 y : Int) :
    SequenceLayerStore.get_color env s start t x1 y =
      SequenceLayerStore.get_color env s start t x2 y := rfl

/-- Folding add_action over an action list fully characterizes the
tracker: the first capacity-minus-fill actions are pushed, later ones
are silently dropped, and capacity and redo stack are untouched. -/
theorem foldl_add_action_eq {A : Type} (acts : List A) (C : Nat) (s r : List A) :
    acts.foldl UndoTracker.add_action ⟨C, s, r⟩ =
      ⟨C, (acts.take (C - s.length)).reverse ++ s, r⟩ := by
  induction acts generalizing s with
  | nil => simp
  | cons a rest ih =>
    by_cases h : s.length < C
    · have hstep : UndoTracker.add_action ⟨C, s, r⟩ a = ⟨C, a :: s, r⟩ := by
        unfold UndoTracker.add_action
        simp [h]
      rw [List.foldl_cons, hstep, ih]
      obtain ⟨n, hn⟩ : ∃ n, C - s.length = n + 1 := ⟨C - s.length - 1, by omega⟩
      have hn2 : C - (a :: s).length = n := by simp; omega
      rw [hn, hn2]
      simp [List.take_succ_cons]
    · have hstep : UndoTracker.add_action ⟨C, s, r⟩ a = ⟨C, s, r⟩ := by
        unfold UndoTracker.add_action
        simp [h]
      have h0 : C - s.length = 0 := by omega
      rw [List.foldl_cons, hstep, ih, h0]
      simp

/-- Iterated undo drains the stack: it returns the stacked actions top
first and appends the matching inverse events to the grid trace. -/
theorem undoIter_drains {A : Type} (s : List A) (C : Nat) (r : List A) (g : List (PEvent A)) :
    UndoTracker.undoIter s.length ⟨C, s, r⟩ g = (s, g ++ s.map PEvent.und) := by
  induction s generalizing g with
  | nil => simp [UndoTracker.undoIter]
  | cons a rest ih =>
    simp only [List.length_cons, UndoTracker.undoIter, UndoTracker.undo]
    rw [ih]
    simp

/-- C7: for any capacity, folding add_action over a fresh tracker
retains exactly the first capacity-many actions (later pushes are
silently dropped); iterated undo on the resulting tracker returns the
retained actions in reverse insertion order while applying each inverse
to the grid; and undo on an empty history reports none and leaves the
grid unchanged. -/
theorem C7_undo_tracker_capacity_and_order {A : Type} :
    (∀ (C : Nat) (acts : List A),
      (acts.foldl UndoTracker.add_action (UndoTracker.init A C)).undo_stack =
        (acts.take C).reverse) ∧
    (∀ (C : Nat) (acts : List A) (g : List (PEvent A)),
      UndoTracker.undoIter ((acts.take C).reverse).length
          (acts.foldl UndoTracker.add_action (UndoTracker.init A C)) g =
        ((acts.take C).reverse, g ++ ((acts.take C).reverse).map PEvent.und)) ∧
    (∀ (C : Nat) (g : List (PEvent A)),
      UndoTracker.undo (UndoTracker.init A C) g = (none, UndoTracker.init A C, g)) := by
  refine ⟨?_, ?_, ?_⟩
  · intro C acts
    rw [show UndoTracker.init A C = ⟨C, [], []⟩ from rfl, foldl_add_action_eq]
    simp
  · intro C acts g
    rw [show UndoTracker.init A C = ⟨C, [], []⟩ from rfl, foldl_add_action_eq]
    simp only [List.length_nil, Nat.sub_zero, List.append_nil]
    exact undoIter_drains ((acts.take C).reverse) C [] g
  · intro C g
    rfl

/-- C6: play_next_action on an empty log reports exhausted without
touching the grid; on a non-empty log it consumes exactly the head
entry — forward apply for a direct action, undo through the associated
action for an undo marker — and reports not exhausted; and the recorded
log draw a, draw b, undo-marker b replays as apply a, apply b, undo b,
with a fourth call reporting exhausted. -/
theorem C6_replay_plays_one_entry {A : Type} :
    (∀ (qcap : Nat) (ut : UndoTracker A) (g : List (PEvent A)),
      ReplayTracker.play_next_action ⟨qcap, [], ut⟩ g = (true, ⟨qcap, [], ut⟩, g)) ∧
    (∀ (qcap : Nat) (a : A) (rest : List (REntry A)) (ut : UndoTracker A)
        (g : List (PEvent A)),
      ReplayTracker.play_next_action ⟨qcap, .pa a :: rest, ut⟩ g =
        (false, ⟨qcap, rest, ut⟩, g ++ [.fwd a])) ∧
    (∀ (qcap : Nat) (a : A) (rest nq : List (REntry A)) (ut : UndoTracker A)
        (g : List (PEvent A)),
      ReplayTracker.play_next_action
          ⟨qcap, .rt nq ((UndoTracker.init A 10000).add_action a) :: rest, ut⟩ g =
        (false, ⟨qcap, rest, ut⟩, g ++ [.und a])) ∧
    (∀ a b : A, ∃ r1 r2 r3 : ReplayTracker A,
      (ReplayTracker.init A 10000).add_action a false = some r1 ∧
      r1.add_action b false = some r2 ∧
      r2.add_action b true = some r3 ∧
      (let p1 := r3.play_next_action []
       let p2 := p1.2.1.play_next_action p1.2.2
       let p3 := p2.2.1.play_next_action p2.2.2
       let p4 := p3.2.1.play_next_action p3.2.2
       (p1.1, p2.1, p3.1, p4.1) = (false, false, false, true) ∧
       p4.2.2 = [.fwd a, .fwd b, .und b])) := by
  refine ⟨fun qcap ut g => rfl, fun qcap a rest ut g => rfl, fun qcap a rest nq ut g => ?_, ?_⟩
  · show (false, _, ((⟨10000, [a], []⟩ : UndoTracker A).undo g).2.2) = _
    rfl
  · intro a b
    refine ⟨⟨10000, [.pa a], ⟨10000, [a], []⟩⟩,
      ⟨10000, [.pa a, .pa b], ⟨10000, [b, a], []⟩⟩,
      ⟨10000, [.pa a, .pa b, .rt [.pa b] ⟨10000, [b], []⟩], ⟨10000, [b, b, a], []⟩⟩,
      ?_, ?_, ?_, ?_, ?_⟩ <;> rfl

/-- Membership in the Python-style integer range. -/
theorem mem_intRange {a b i : Int} : i ∈ intRange a b ↔ a ≤ i ∧ i < b := by
  unfold intRange
  simp only [List.mem_map, List.mem_range]
  constructor
  · rintro ⟨k, hk, rfl⟩
    omega
  · rintro ⟨h1, h2⟩
    refine ⟨(i - a).toNat, by omega, by omega⟩

/-- The Python-style integer range has no duplicates. -/
theorem nodup_intRange (a b : Int) : (intRange a b).Nodup := by
  unfold intRange
  refine List.Nodup.map ?_ (List.nodup_range _)
  intro p q h
  have h2 : a + (p : Int) = a + (q : Int) := h
  omega

/-- Membership in the inner brush loop for a fixed column: exactly the
cells of that column that pass the distance and bounds tests. -/
theorem mem_innerCells {b n m : Nat} {x y i : Int} {p : Int × Int} :
    p ∈ innerCells b n m x y i ↔
      p.1 = i ∧ (x - i).natAbs + (y - p.2).natAbs ≤ b ∧
        0 ≤ i ∧ i < (n : Int) ∧ 0 ≤ p.2 ∧ p.2 < (m : Int) := by
  unfold innerCells
  simp only [List.mem_filterMap, mem_intRange]
  constructor
  · rintro ⟨j, hj, hsome⟩
    split at hsome
    · rename_i hc
      cases hsome
      exact ⟨rfl, hc.1, hc.2.1, hc.2.2.1, hc.2.2.2.1, hc.2.2.2.2⟩
    · exact absurd hsome (by simp)
  · rintro ⟨h1, h2, h3, h4, h5, h6⟩
    refine ⟨p.2, ⟨by omega, by omega⟩, ?_⟩
    rw [if_pos ⟨h2, h3, h4, h5, h6⟩, ← h1]

/-- The inner brush loop produces no duplicate cells. -/
theorem nodup_innerCells (b n m : Nat) (x y i : Int) : (innerCells b n m x y i).Nodup := by
  unfold innerCells
  refine List.Nodup.filterMap ?_ (nodup_intRange _ _)
  intro a a2 c hca hca2
  have h1 : c.2 = a := by
    split at hca
    · cases hca; rfl
    · exact absurd hca (by simp)
  have h2 : c.2 = a2 := by
    split at hca2
    · cases hca2; rfl
    · exact absurd hca2 (by simp)
  omega

/-- Membership in the brush trace: exactly the in-grid cells within
Manhattan distance brush_size of the centre. -/
theorem mem_manhattan {g : Grid} {x y : Int} {p : Int × Int} :
    p ∈ g.manhattan_distance x y ↔
      (x - p.1).natAbs + (y - p.2).natAbs ≤ g.brush_size ∧
        0 ≤ p.1 ∧ p.1 < (g.x : Int) ∧ 0 ≤ p.2 ∧ p.2 < (g.y : Int) := by
  unfold Grid.manhattan_distance
  simp only [List.mem_flatMap, mem_intRange, mem_innerCells]
  constructor
  · rintro ⟨i, hi, h1, h2, h3, h4, h5, h6⟩
    rw [h1]
    exact ⟨h2, h3, h4, h5, h6⟩
  · rintro ⟨h2, h3, h4, h5, h6⟩
    refine ⟨p.1, ⟨by omega, by omega⟩, rfl, h2, h3, h4, h5, h6⟩

/-- The brush trace has no duplicate cells. -/
theorem nodup_manhattan (g : Grid) (x y : Int) : (g.manhattan_distance x y).Nodup := by
  unfold Grid.manhattan_distance
  rw [List.nodup_flatMap]
  constructor
  · intro i hi
    exact nodup_innerCells _ _ _ _ _ _
  · have hpw := nodup_intRange (x - g.brush_size) (x + g.brush_size + 1)
    refine List.Pairwise.imp ?_ hpw
    intro a b hab
    intro c hca hcb
    have h1 := (mem_innerCells.mp hca).1
    have h2 := (mem_innerCells.mp hcb).1
    exact hab (h1 ▸ h2.symm ▸ rfl)

/-- An element of a duplicate-free list is counted exactly once, for any
lawful boolean equality. -/
theorem count_eq_one_of_mem_lawful {α : Type} [BEq α] [LawfulBEq α] :
    ∀ {l : List α} {a : α}, l.Nodup → a ∈ l → l.count a = 1 := by
  intro l a hn hm
  induction l with
  | nil => cases hm
  | cons b t ih =>
    have hbt := List.nodup_cons.mp hn
    rw [List.count_cons]
    rcases List.mem_cons.mp hm with h | h
    · subst h
      rw [List.count_eq_zero.mpr hbt.1]
      simp
    · rw [ih hbt.2 h]
      have hba : ¬ b = a := by
        intro he
        subst he
        exact hbt.1 h
      simp [hba]

/-- C8: for a brush size in the allowed range, the brush stamp calls add
exactly once on every in-grid cell whose Manhattan distance from the
centre is at most the brush size, and on no other cell; out-of-bounds
offsets are skipped silently. -/
theorem C8_apply_brush_footprint (g : Grid) (x y i j : Int) (hb : g.brush_size ≤ 5) :
    (g.manhattan_distance x y).count (i, j) =
      if (x - i).natAbs + (y - j).natAbs ≤ g.brush_size ∧
          0 ≤ i ∧ i < (g.x : Int) ∧ 0 ≤ j ∧ j < (g.y : Int)
      then 1 else 0 := by
  by_cases h : (x - i).natAbs + (y - j).natAbs ≤ g.brush_size ∧
      0 ≤ i ∧ i < (g.x : Int) ∧ 0 ≤ j ∧ j < (g.y : Int)
  · rw [if_pos h]
    exact count_eq_one_of_mem_lawful (nodup_manhattan g x y) ((@mem_manhattan g x y (i, j)).mpr h)
  · rw [if_neg h]
    exact List.count_eq_zero.mpr (fun hm => h ((@mem_manhattan g x y (i, j)).mp hm))

/-- Witness for C8: on a 3 by 3 grid with the default brush size 2, the
cell (1, 2) at Manhattan distance 1 from the centre (1, 1) receives
exactly one add call. -/
theorem C8_apply_brush_footprint_witness :
    (Grid.init "SET" 3 3).brush_size ≤ 5 ∧
    ((Grid.init "SET" 3 3).manhattan_distance 1 1).count (1, 2) = 1 :=
  ⟨by decide, C8_apply_brush_footprint (Grid.init "SET" 3 3) 1 1 1 2 (by decide)⟩

/-- The additive colour loop drains the main queue into the scratch
queue in order and folds the transforms left to right, provided the two
queues together fit the capacity bound. -/
theorem additiveLoop_spec (t x y : Int) :
    ∀ (layers temp : List Layer) (c : Color),
      temp.length + layers.length ≤ 2000 →
      additiveLoop t x y layers temp c =
        some ([], temp ++ layers, layers.foldl (fun c2 L => L.apply c2 t x y) c) := by
  intro layers
  induction layers with
  | nil =>
    intro temp c h
    simp [additiveLoop]
  | cons L rest ih =>
    intro temp c h
    simp only [List.length_cons] at h
    have hlt : temp.length < 2000 := by omega
    have happ : qAppend 2000 temp L = some (temp ++ [L]) := by
      unfold qAppend
      rw [if_pos hlt]
    unfold additiveLoop
    rw [happ]
    show additiveLoop t x y rest (temp ++ [L]) (L.apply c t x y) = _
    rw [ih (temp ++ [L]) (L.apply c t x y) (by simp; omega)]
    simp

/-- C9: on any reachable AdditiveLayerStore — scratch queue empty and at
most 2000 stored layers — get_color returns the left-to-right fold of
the stored transforms over the start colour in insertion order and
returns the store unchanged, so a second identical call gives the same
result. -/
theorem C9_additive_get_color_pure (s : AdditiveLayerStore) (start : Color) (t x y : Int)
    (htemp : s.temp_queue = []) (hlen : s.layers.length ≤ 2000) :
    s.get_color start t x y =
      some (s.layers.foldl (fun c L => L.apply c t x y) start, s) ∧
    (s.get_color start t x y).bind (fun r => r.2.get_color start t x y) =
      s.get_color start t x y := by
  have hmain : s.get_color start t x y =
      some (s.layers.foldl (fun c L => L.apply c t x y) start, s) := by
    unfold AdditiveLayerStore.get_color
    rw [htemp, additiveLoop_spec t x y s.layers [] start (by simpa using hlen)]
    conv_rhs => rw [show s = ⟨s.layers, s.temp_queue⟩ from rfl, htemp]
    rfl
  refine ⟨hmain, ?_⟩
  rw [hmain]
  exact hmain

/-- Witness for C9: a one-layer store with empty scratch queue returns
the folded colour and itself, and repeating the call changes nothing. -/
theorem C9_additive_get_color_pure_witness :
    (⟨[layerA], []⟩ : AdditiveLayerStore).temp_queue = [] ∧
    (⟨[layerA], []⟩ : AdditiveLayerStore).layers.length ≤ 2000 ∧
    AdditiveLayerStore.get_color ⟨[layerA], []⟩ (0, 0, 0) 0 0 0 =
      some ((0, 0, 0), ⟨[layerA], []⟩) :=
  ⟨rfl, by decide,
    (C9_additive_get_color_pure ⟨[layerA], []⟩ (0, 0, 0) 0 0 0 rfl (by decide)).1⟩
